import Mathlib

/-!
Shallow embedding of the label-masking kernel of `MaskObjects.run`
(cellprofiler/modules/maskobjects.py, lines 245-315).

Grids are flattened to lists: the label matrix is a `List Nat` (0 =
background) and the aligned mask a `List Bool` of the same length (the
caller-side aligner `cpo.size_similarly` guarantees equal shapes; where a
pixel-wise statement needs it, the equal-length fact appears as a
hypothesis).  Every operation of the kernel is element-wise or an
aggregate over pixels, so the 2-D shape is irrelevant to the claims.

`scind.sum(mask, labels, np.arange(1, nobjects+1))` counts, for each
object id, the pixels of that object lying under the mask;
`scind.sum(np.ones(shape), labels, ...)` counts all pixels of the object.
Both are embedded as filtered lengths.  The RemoveByFraction comparison
`pixel_counts / total_pixels >= fraction` is float division of exact
small integers in the source; when `total_pixels == 0` it evaluates to
`nan >= fraction`, which is false in IEEE arithmetic — embedded as an
explicit zero guard — and otherwise as exact rational division.
-/

namespace MaskObjects

/-- `nobjects = np.max(labels)`: labels range over `0..nobjects`. -/
def nobjects (labels : List Nat) : Nat := labels.foldr max 0

/-- Pixels where `label == id AND mask == true`
(`scind.sum(mask, labels, id)` for one id). -/
def overlapCount (labels : List Nat) (mask : List Bool) (id : Nat) : Nat :=
  ((labels.zip mask).filter (fun lm => lm.1 == id && lm.2)).length

/-- Pixels where `label == id`
(`scind.sum(np.ones(labels.shape), labels, id)` for one id). -/
def totalCount (labels : List Nat) (id : Nat) : Nat :=
  (labels.filter (fun l => l == id)).length

/-- The four values of the "Handling of objects that are partially masked"
setting: `P_MASK` (ClipToOverlap), `P_KEEP` (KeepIfAnyOverlap),
`P_REMOVE` (RemoveIfAnyOutside), `P_REMOVE_PERCENTAGE` (RemoveByFraction). -/
inductive OverlapChoice
  | pMask
  | pKeep
  | pRemove
  | pRemovePct
  deriving DecidableEq

/-- The two values of the "Numbering of resulting objects" setting:
`R_RETAIN` and `R_RENUMBER`. -/
inductive RenumberChoice
  | rRetain
  | rRenumber
  deriving DecidableEq

/-- Entry `id` of the `keep` vector of `run` for the three survival-test
policies (`pixel_counts > 0`, `pixel_counts == total_pixels`,
`pixel_counts / total_pixels >= fraction`).  The `pMask` arm is never
consulted: the clip path multiplies the grid by the mask instead of
testing.  For `pRemovePct`, `total_pixels == 0` makes the source compute
`0.0/0.0 = nan`, and `nan >= fraction` is false. -/
def keepFlag (c : OverlapChoice) (f : ℚ) (labels : List Nat)
    (mask : List Bool) (id : Nat) : Bool :=
  match c with
  | .pMask => false
  | .pKeep => overlapCount labels mask id != 0
  | .pRemove => overlapCount labels mask id == totalCount labels id
  | .pRemovePct =>
      totalCount labels id != 0 &&
        decide (f ≤ (overlapCount labels mask id : ℚ) / (totalCount labels id : ℚ))

/-- The masked grid: lines 255-276 of `run`.  `nobjects == 0` short-circuits
(`pass`); `P_MASK` computes `labels * mask`; the other choices zero every
pixel whose label's keep flag is down — `keep = np.hstack(([False], keep));
labels[~keep[labels]] = 0`, where the prepended `False` forces label 0 out. -/
def maskLabels (c : OverlapChoice) (f : ℚ) (labels : List Nat)
    (mask : List Bool) : List Nat :=
  if nobjects labels = 0 then labels
  else if c = OverlapChoice.pMask then
    (labels.zip mask).map (fun lm => if lm.2 then lm.1 else 0)
  else
    labels.map (fun l => if l != 0 && keepFlag c f labels mask l then l else 0)

/-- `np.unique` on a list of naturals: the sorted list of distinct values.
Every value is at most the running max, so filtering `range` reproduces it. -/
def npUnique (xs : List Nat) : List Nat :=
  (List.range (xs.foldr max 0 + 1)).filter (fun k => xs.contains k)

/-- The `indexer` array of the renumber branch as a function:
`indexer = np.zeros(nobjects+1); indexer[unique_labels] = np.arange(1, m+1)`,
so a value found at position `i` of `unique_labels` maps to `i+1` and
anything else to 0. -/
def indexer (ul : List Nat) (v : Nat) : Nat :=
  match ul.indexOf? v with
  | some i => i + 1
  | none => 0

/-- Lines 280-287 of `run`: the renumber stage, returning the final grid and
`parent_objects` (the lineage list: entry `i` is the original id of new id
`i+1`).  Renumber: `unique_labels = np.unique(labels[labels != 0])`,
`labels = indexer[labels]`, `parent_objects = unique_labels`.
Retain: grid unchanged, `parent_objects = np.arange(1, nobjects+1)`. -/
def renumberStage (rn : RenumberChoice) (no : Nat) (masked : List Nat) :
    List Nat × List Nat :=
  match rn with
  | .rRenumber =>
      (masked.map (indexer (npUnique (masked.filter (fun l => l != 0)))),
       npUnique (masked.filter (fun l => l != 0)))
  | .rRetain => (masked, (List.range no).map (fun k => k + 1))

/-- The whole kernel of `run`: mask stage then renumber stage; first
component the output grid, second the lineage list. -/
def runKernel (c : OverlapChoice) (f : ℚ) (rn : RenumberChoice)
    (labels : List Nat) (mask : List Bool) : List Nat × List Nat :=
  renumberStage rn (nobjects labels) (maskLabels c f labels mask)

/-- Lines 303-308 of `run`: the per-original-object survivor-flag vector.
If `np.max(original) == 0` the vector is empty; otherwise entry `k` of
`0..nobjects-1` is `scind.sum(out, original, k+1) > 0` cast to int: the sum
of output label values over the pixels of original object `k+1`. -/
def childCount (origLabels outLabels : List Nat) : List Nat :=
  if nobjects origLabels = 0 then []
  else
    (List.range (nobjects origLabels)).map (fun k =>
      if 0 < (((origLabels.zip outLabels).filter
          (fun pr => pr.1 == k + 1)).map (fun pr => pr.2)).sum
      then 1 else 0)

/-- An original object id survives the mask stage when it still owns a pixel
of the masked grid (equivalently: some nonzero output pixel before
renumbering carries it). -/
def survives (c : OverlapChoice) (f : ℚ) (labels : List Nat)
    (mask : List Bool) (id : Nat) : Bool :=
  id != 0 && (maskLabels c f labels mask).contains id

/-! ### Helper lemmas about the embedded kernel -/

theorem nobjects_eq_zero {labels : List Nat} (h : nobjects labels = 0) :
    ∀ x ∈ labels, x = 0 := by
  induction labels with
  | nil => intro x hx; cases hx
  | cons a l ih =>
      have h' : max a (nobjects l) = 0 := h
      rcases Nat.max_eq_zero_iff.mp h' with ⟨ha, hl⟩
      intro x hx
      rcases List.mem_cons.mp hx with rfl | hx
      · exact ha
      · exact ih hl x hx

theorem mem_le_nobjects {labels : List Nat} {x : Nat} (h : x ∈ labels) :
    x ≤ nobjects labels := by
  induction labels with
  | nil => cases h
  | cons a l ih =>
      rcases List.mem_cons.mp h with rfl | h
      · exact Nat.le_max_left _ _
      · exact Nat.le_trans (ih h) (Nat.le_max_right _ _)

theorem totalCount_pos_iff (labels : List Nat) (id : Nat) :
    0 < totalCount labels id ↔ id ∈ labels := by
  induction labels with
  | nil => simp [totalCount]
  | cons a l ih =>
      by_cases hai : a = id
      · subst hai
        simp [totalCount, List.filter_cons]
      · simp only [totalCount, List.filter_cons, beq_iff_eq, if_neg hai,
          List.mem_cons]
        rw [show (totalCount l id = (List.filter (fun x => x == id) l).length)
          from rfl] at ih
        rw [ih]
        constructor
        · exact Or.inr
        · rintro (rfl | h)
          · exact absurd rfl hai
          · exact h

theorem overlapCount_le_totalCount :
    ∀ (labels : List Nat) (mask : List Bool) (id : Nat),
      overlapCount labels mask id ≤ totalCount labels id := by
  intro labels
  induction labels with
  | nil => intro mask id; simp [overlapCount, totalCount]
  | cons a l ih =>
      intro mask id
      cases mask with
      | nil => simp [overlapCount, totalCount]
      | cons m ms =>
          have h1 : overlapCount (a :: l) (m :: ms) id =
              (if (a == id && m) = true
               then overlapCount l ms id + 1 else overlapCount l ms id) := by
            simp only [overlapCount, List.zip_cons_cons, List.filter_cons]
            by_cases h : (a == id && m) = true
            · simp [h]
            · simp [h]
          have h2 : totalCount (a :: l) id =
              (if (a == id) = true then totalCount l id + 1
               else totalCount l id) := by
            simp only [totalCount, List.filter_cons]
            by_cases h : (a == id) = true
            · simp [h]
            · simp [h]
          rw [h1, h2]
          have hle := ih ms id
          by_cases ha : (a == id) = true
          · by_cases hm : (a == id && m) = true
            · rw [if_pos hm, if_pos ha]; omega
            · rw [if_neg hm, if_pos ha]; omega
          · have hm : ¬(a == id && m) = true := by
              intro h
              rw [Bool.and_eq_true] at h
              exact ha h.1
            rw [if_neg hm, if_neg ha]
            exact hle

theorem mem_maskLabels_iff {c : OverlapChoice} (hc : c ≠ OverlapChoice.pMask)
    (f : ℚ) (labels : List Nat) (mask : List Bool) {id : Nat} (hid : id ≠ 0) :
    id ∈ maskLabels c f labels mask ↔
      id ∈ labels ∧ keepFlag c f labels mask id = true := by
  unfold maskLabels
  by_cases h0 : nobjects labels = 0
  · rw [if_pos h0]
    constructor
    · intro hmem; exact absurd (nobjects_eq_zero h0 id hmem) hid
    · exact fun h => h.1
  · rw [if_neg h0, if_neg hc]
    rw [List.mem_map]
    constructor
    · rintro ⟨a, ha, hga⟩
      by_cases hcond : (a != 0 && keepFlag c f labels mask a) = true
      · rw [if_pos hcond] at hga
        subst hga
        rw [Bool.and_eq_true] at hcond
        exact ⟨ha, hcond.2⟩
      · rw [if_neg hcond] at hga
        exact absurd hga.symm hid
    · rintro ⟨hmem, hflag⟩
      refine ⟨id, hmem, ?_⟩
      rw [if_pos]
      rw [Bool.and_eq_true, bne_iff_ne]
      exact ⟨hid, hflag⟩

theorem survives_iff {c : OverlapChoice} (hc : c ≠ OverlapChoice.pMask)
    (f : ℚ) (labels : List Nat) (mask : List Bool) (id : Nat) :
    survives c f labels mask id = true ↔
      id ≠ 0 ∧ id ∈ labels ∧ keepFlag c f labels mask id = true := by
  unfold survives
  rw [Bool.and_eq_true, bne_iff_ne, List.elem_iff]
  constructor
  · rintro ⟨hid, hmem⟩
    exact ⟨hid, (mem_maskLabels_iff hc f labels mask hid).mp hmem⟩
  · rintro ⟨hid, hmem, hflag⟩
    exact ⟨hid, (mem_maskLabels_iff hc f labels mask hid).mpr ⟨hmem, hflag⟩⟩

theorem getD_eq_get {α : Type} (l : List α) (d : α) :
    ∀ i (h : i < l.length), l.getD i d = l.get ⟨i, h⟩ := by
  induction l with
  | nil => intro i h; cases h
  | cons a t ih =>
      intro i h
      cases i with
      | zero => rfl
      | succ j => exact ih j (Nat.lt_of_succ_lt_succ h)

theorem getD_mem {α : Type} (l : List α) (d : α) (i : Nat)
    (h : i < l.length) : l.getD i d ∈ l := by
  rw [getD_eq_get l d i h]
  exact l.get_mem i h

theorem getD_map_zero {g : Nat → Nat} (hg : g 0 = 0) :
    ∀ (l : List Nat) (i : Nat), (l.map g).getD i 0 = g (l.getD i 0) := by
  intro l
  induction l with
  | nil => intro i; cases i <;> simp [hg]
  | cons a t ih =>
      intro i
      cases i with
      | zero => rfl
      | succ j => exact ih j

theorem clip_getD :
    ∀ (labels : List Nat) (mask : List Bool) (i : Nat), i < labels.length →
      mask.length = labels.length →
      ((labels.zip mask).map (fun lm => if lm.2 then lm.1 else 0)).getD i 0 =
        (if mask.getD i false = true then labels.getD i 0 else 0) := by
  intro labels
  induction labels with
  | nil => intro mask i h _; cases h
  | cons a l ih =>
      intro mask i hi hlen
      cases mask with
      | nil => simp at hlen
      | cons m ms =>
          cases i with
          | zero => cases m <;> rfl
          | succ j =>
              have hlen' : ms.length = l.length := by simpa using hlen
              exact ih ms j (Nat.lt_of_succ_lt_succ hi) hlen'

theorem maskLabels_length (c : OverlapChoice) (f : ℚ) (labels : List Nat)
    (mask : List Bool) (hlen : mask.length = labels.length) :
    (maskLabels c f labels mask).length = labels.length := by
  unfold maskLabels
  by_cases h0 : nobjects labels = 0
  · rw [if_pos h0]
  · rw [if_neg h0]
    by_cases hc : c = OverlapChoice.pMask
    · rw [if_pos hc]
      simp [hlen]
    · rw [if_neg hc]
      simp

theorem runKernel_length (c : OverlapChoice) (f : ℚ) (rn : RenumberChoice)
    (labels : List Nat) (mask : List Bool) (hlen : mask.length = labels.length) :
    (runKernel c f rn labels mask).1.length = labels.length := by
  unfold runKernel renumberStage
  cases rn with
  | rRetain => exact maskLabels_length c f labels mask hlen
  | rRenumber => simpa using maskLabels_length c f labels mask hlen

theorem mem_npUnique {xs : List Nat} {k : Nat} : k ∈ npUnique xs ↔ k ∈ xs := by
  unfold npUnique
  rw [List.mem_filter, List.mem_range]
  constructor
  · rintro ⟨_, h⟩
    exact List.elem_iff.mp h
  · intro h
    exact ⟨Nat.lt_succ_of_le (mem_le_nobjects h), List.elem_iff.mpr h⟩

theorem npUnique_pairwise (xs : List Nat) :
    (npUnique xs).Pairwise (· < ·) :=
  (List.pairwise_lt_range _).filter _

theorem npUnique_nodup (xs : List Nat) : (npUnique xs).Nodup :=
  (npUnique_pairwise xs).imp (fun h => Nat.ne_of_lt h)

theorem indexOf?_get_nodup :
    ∀ (l : List Nat), l.Nodup → ∀ i (hi : i < l.length),
      l.indexOf? (l.get ⟨i, hi⟩) = some i := by
  intro l
  induction l with
  | nil => intro _ i hi; cases hi
  | cons a t ih =>
      intro hnd i hi
      cases i with
      | zero =>
          rw [List.indexOf?_cons]
          simp
      | succ j =>
          rw [List.indexOf?_cons]
          have hj : j < t.length := Nat.lt_of_succ_lt_succ hi
          have hget : (a :: t).get ⟨j + 1, hi⟩ = t.get ⟨j, hj⟩ := rfl
          rw [hget]
          have hne : ¬(a == t.get ⟨j, hj⟩) = true := by
            rw [beq_iff_eq]
            intro h
            have hmem : a ∈ t := h ▸ t.get_mem j hj
            exact (List.nodup_cons.mp hnd).1 hmem
          rw [if_neg hne, ih (List.nodup_cons.mp hnd).2 j hj]
          rfl

theorem indexer_of_not_mem {ul : List Nat} {v : Nat} (h : v ∉ ul) :
    indexer ul v = 0 := by
  unfold indexer
  have hnone : ul.indexOf? v = none := by
    rw [List.indexOf?_eq_none_iff]
    intro x hx
    rw [beq_iff_eq]
    intro heq
    exact h (heq ▸ hx)
  rw [hnone]

theorem keepFlag_pRemove_iff (f : ℚ) (labels : List Nat) (mask : List Bool)
    (id : Nat) :
    keepFlag OverlapChoice.pRemove f labels mask id = true ↔
      overlapCount labels mask id = totalCount labels id := by
  show (overlapCount labels mask id == totalCount labels id) = true ↔ _
  rw [beq_iff_eq]

theorem keepFlag_pKeep_iff (f : ℚ) (labels : List Nat) (mask : List Bool)
    (id : Nat) :
    keepFlag OverlapChoice.pKeep f labels mask id = true ↔
      0 < overlapCount labels mask id := by
  show (overlapCount labels mask id != 0) = true ↔ _
  rw [bne_iff_ne]
  omega

theorem keepFlag_pRemovePct_iff (f : ℚ) (labels : List Nat)
    (mask : List Bool) (id : Nat) :
    keepFlag OverlapChoice.pRemovePct f labels mask id = true ↔
      (totalCount labels id ≠ 0 ∧
        f ≤ (overlapCount labels mask id : ℚ) / (totalCount labels id : ℚ)) := by
  show (totalCount labels id != 0 && _) = true ↔ _
  rw [Bool.and_eq_true, bne_iff_ne, decide_eq_true_iff]

/-! ### The claims -/

/-- C1: under `P_REMOVE` (RemoveIfAnyOutside), an object id in
`1..nobjects` survives iff its overlap count equals its total count, and a
vanished label (total count 0) never survives.  The test
`pixel_counts == total_pixels` is pure integer comparison on totals; the
embedding is a total function, so no division or comparison error can
arise. -/
theorem claim1_remove_if_any_outside (f : ℚ) (labels : List Nat)
    (mask : List Bool) (id : Nat) (h1 : 1 ≤ id) (_h2 : id ≤ nobjects labels) :
    survives OverlapChoice.pRemove f labels mask id = true ↔
      (0 < totalCount labels id ∧
        overlapCount labels mask id = totalCount labels id) := by
  rw [survives_iff (by decide) f labels mask id, keepFlag_pRemove_iff]
  rw [totalCount_pos_iff]
  constructor
  · rintro ⟨_, hmem, heq⟩
    exact ⟨hmem, heq⟩
  · rintro ⟨hmem, heq⟩
    exact ⟨by omega, hmem, heq⟩

/-- C1 witness: grid `[1,1,2]` under mask `[T,T,F]`: object 1 is entirely
inside the mask and survives; the equivalence is instantiated at id 1. -/
theorem claim1_witness :
    survives OverlapChoice.pRemove 0 [1, 1, 2] [true, true, false] 1 = true ↔
      (0 < totalCount [1, 1, 2] 1 ∧
        overlapCount [1, 1, 2] [true, true, false] 1 = totalCount [1, 1, 2] 1) :=
  claim1_remove_if_any_outside 0 [1, 1, 2] [true, true, false] 1
    (by decide) (by decide)

/-- C5: under `P_REMOVE_PERCENTAGE` (RemoveByFraction `f`), an object id in
`1..nobjects` survives iff its total count is positive and
`overlap / total >= f` (exact rational division); an object with total
count 0 never survives — the source computes `0.0/0.0 = nan` there and
`nan >= f` is false, so no divide-by-zero fault escapes. -/
theorem claim5_remove_by_fraction (f : ℚ) (labels : List Nat)
    (mask : List Bool) (id : Nat) (h1 : 1 ≤ id) (_h2 : id ≤ nobjects labels) :
    (survives OverlapChoice.pRemovePct f labels mask id = true ↔
      (0 < totalCount labels id ∧
        (overlapCount labels mask id : ℚ) / (totalCount labels id : ℚ) ≥ f)) ∧
    (totalCount labels id = 0 →
      survives OverlapChoice.pRemovePct f labels mask id = false) := by
  have hiff : survives OverlapChoice.pRemovePct f labels mask id = true ↔
      (0 < totalCount labels id ∧
        (overlapCount labels mask id : ℚ) / (totalCount labels id : ℚ) ≥ f) := by
    rw [survives_iff (by decide) f labels mask id, keepFlag_pRemovePct_iff]
    rw [totalCount_pos_iff]
    constructor
    · rintro ⟨_, hmem, _, hdiv⟩
      exact ⟨hmem, hdiv⟩
    · rintro ⟨hmem, hdiv⟩
      have hpos : 0 < totalCount labels id := (totalCount_pos_iff labels id).mpr hmem
      exact ⟨by omega, hmem, by omega, hdiv⟩
  refine ⟨hiff, fun htz => ?_⟩
  cases hsv : survives OverlapChoice.pRemovePct f labels mask id with
  | false => rfl
  | true =>
      have := (hiff.mp hsv).1
      omega

/-- C5 witness: grid `[1,1,2]`, mask `[T,F,F]`, fraction `1/2`: object 1 has
overlap 1 of total 2, exactly at the threshold. -/
theorem claim5_witness :
    (survives OverlapChoice.pRemovePct (1 / 2) [1, 1, 2] [true, false, false] 1
        = true ↔
      (0 < totalCount [1, 1, 2] 1 ∧
        (overlapCount [1, 1, 2] [true, false, false] 1 : ℚ) /
          (totalCount [1, 1, 2] 1 : ℚ) ≥ 1 / 2)) ∧
    (totalCount [1, 1, 2] 1 = 0 →
      survives OverlapChoice.pRemovePct (1 / 2) [1, 1, 2] [true, false, false] 1
        = false) :=
  claim5_remove_by_fraction (1 / 2) [1, 1, 2] [true, false, false] 1
    (by decide) (by decide)

/-- C2: for a fixed fraction `f` with `0 < f ≤ 1` and identical
`(labels, mask)`, the survivor sets are nested: every RemoveIfAnyOutside
survivor survives RemoveByFraction(`f`), and every RemoveByFraction(`f`)
survivor survives KeepIfAnyOverlap. -/
theorem claim2_nested_survivor_sets (labels : List Nat) (mask : List Bool)
    (f : ℚ) (hf0 : 0 < f) (hf1 : f ≤ 1) (id : Nat) :
    (survives OverlapChoice.pRemove f labels mask id = true →
      survives OverlapChoice.pRemovePct f labels mask id = true) ∧
    (survives OverlapChoice.pRemovePct f labels mask id = true →
      survives OverlapChoice.pKeep f labels mask id = true) := by
  constructor
  · intro h
    rw [survives_iff (by decide) f labels mask id, keepFlag_pRemove_iff] at h
    obtain ⟨hid, hmem, heq⟩ := h
    rw [survives_iff (by decide) f labels mask id, keepFlag_pRemovePct_iff]
    have hpos : 0 < totalCount labels id := (totalCount_pos_iff labels id).mpr hmem
    refine ⟨hid, hmem, by omega, ?_⟩
    rw [heq]
    have htq : ((totalCount labels id : ℚ)) ≠ 0 := by
      exact_mod_cast Nat.pos_iff_ne_zero.mp hpos
    rw [div_self htq]
    exact hf1
  · intro h
    rw [survives_iff (by decide) f labels mask id, keepFlag_pRemovePct_iff] at h
    obtain ⟨hid, hmem, hne, hdiv⟩ := h
    rw [survives_iff (by decide) f labels mask id, keepFlag_pKeep_iff]
    refine ⟨hid, hmem, ?_⟩
    by_contra hno
    have ho : overlapCount labels mask id = 0 := by omega
    rw [ho] at hdiv
    simp only [Nat.cast_zero, zero_div] at hdiv
    exact absurd (lt_of_lt_of_le hf0 hdiv) (lt_irrefl 0)

/-- C2 witness: grid `[1,1,2]`, mask `[T,T,F]`, fraction `1/2`, id 1: the
fully covered object 1 survives all three policies, instantiating both
inclusions. -/
theorem claim2_witness :
    (survives OverlapChoice.pRemove (1 / 2) [1, 1, 2] [true, true, false] 1
        = true →
      survives OverlapChoice.pRemovePct (1 / 2) [1, 1, 2] [true, true, false] 1
        = true) ∧
    (survives OverlapChoice.pRemovePct (1 / 2) [1, 1, 2] [true, true, false] 1
        = true →
      survives OverlapChoice.pKeep (1 / 2) [1, 1, 2] [true, true, false] 1
        = true) :=
  claim2_nested_survivor_sets [1, 1, 2] [true, true, false] (1 / 2)
    (by norm_num) (by norm_num) 1

/-- C3 counterexample: grid `[1]` under mask `[F]`: object 1 has total
count 1 > 0 and overlap 0.  RemoveByFraction(0) keeps it
(`0.0/1.0 >= 0.0` holds), while KeepIfAnyOverlap removes it
(`0 > 0` fails), so the two survivor tests are not identical on objects
with positive total count. -/
theorem claim3_counterexample :
    0 < totalCount [1] 1 ∧
    survives OverlapChoice.pRemovePct 0 [1] [false] 1 = true ∧
    survives OverlapChoice.pKeep 0 [1] [false] 1 = false := by
  refine ⟨by decide, ?_, by decide⟩
  simp [survives, maskLabels, nobjects, keepFlag, overlapCount, totalCount]

/-- C3 amended: RemoveByFraction(0) keeps every object with positive total
count regardless of overlap (so it agrees with KeepIfAnyOverlap only where
the overlap count is positive), and an object with total count 0 still
never survives under RemoveByFraction(0). -/
theorem claim3_fraction_zero (labels : List Nat) (mask : List Bool)
    (id : Nat) (h1 : 1 ≤ id) :
    (survives OverlapChoice.pRemovePct 0 labels mask id = true ↔
      0 < totalCount labels id) ∧
    (0 < overlapCount labels mask id →
      survives OverlapChoice.pRemovePct 0 labels mask id =
        survives OverlapChoice.pKeep 0 labels mask id) ∧
    (totalCount labels id = 0 →
      survives OverlapChoice.pRemovePct 0 labels mask id = false) := by
  have hiff : survives OverlapChoice.pRemovePct 0 labels mask id = true ↔
      0 < totalCount labels id := by
    rw [survives_iff (by decide) 0 labels mask id, keepFlag_pRemovePct_iff]
    constructor
    · rintro ⟨_, hmem, _, _⟩
      exact (totalCount_pos_iff labels id).mpr hmem
    · intro hpos
      refine ⟨by omega, (totalCount_pos_iff labels id).mp hpos, by omega, ?_⟩
      exact div_nonneg (by positivity) (by positivity)
  refine ⟨hiff, fun hov => ?_, fun htz => ?_⟩
  · have hpos : 0 < totalCount labels id :=
      lt_of_lt_of_le hov (overlapCount_le_totalCount labels mask id)
    have hkeep : survives OverlapChoice.pKeep 0 labels mask id = true := by
      rw [survives_iff (by decide) 0 labels mask id, keepFlag_pKeep_iff]
      exact ⟨by omega, (totalCount_pos_iff labels id).mp hpos, hov⟩
    rw [hkeep, hiff.mpr hpos]
  · cases hsv : survives OverlapChoice.pRemovePct 0 labels mask id with
    | false => rfl
    | true =>
        have := hiff.mp hsv
        omega

/-- C3 witness: grid `[1]`, mask `[true]`, id 1: overlap 1 > 0, so the
amended equivalence and agreement clause are instantiated concretely. -/
theorem claim3_witness :
    (survives OverlapChoice.pRemovePct 0 [1] [true] 1 = true ↔
      0 < totalCount [1] 1) ∧
    (0 < overlapCount [1] [true] 1 →
      survives OverlapChoice.pRemovePct 0 [1] [true] 1 =
        survives OverlapChoice.pKeep 0 [1] [true] 1) ∧
    (totalCount [1] 1 = 0 →
      survives OverlapChoice.pRemovePct 0 [1] [true] 1 = false) :=
  claim3_fraction_zero [1] [true] 1 (by decide)

theorem keepFlag_fraction_one_eq_remove (labels : List Nat)
    (mask : List Bool) {id : Nat} (hpos : 0 < totalCount labels id) :
    keepFlag OverlapChoice.pRemovePct 1 labels mask id =
      keepFlag OverlapChoice.pRemove 1 labels mask id := by
  have hcast : (0 : ℚ) < (totalCount labels id : ℚ) := by exact_mod_cast hpos
  by_cases heq : overlapCount labels mask id = totalCount labels id
  · have h1 : keepFlag OverlapChoice.pRemove 1 labels mask id = true :=
      (keepFlag_pRemove_iff 1 labels mask id).mpr heq
    have h2 : keepFlag OverlapChoice.pRemovePct 1 labels mask id = true := by
      rw [keepFlag_pRemovePct_iff]
      refine ⟨by omega, ?_⟩
      rw [heq, div_self (ne_of_gt hcast)]
    rw [h1, h2]
  · have h1 : keepFlag OverlapChoice.pRemove 1 labels mask id = false := by
      cases h : keepFlag OverlapChoice.pRemove 1 labels mask id with
      | false => rfl
      | true => exact absurd ((keepFlag_pRemove_iff 1 labels mask id).mp h) heq
    have h2 : keepFlag OverlapChoice.pRemovePct 1 labels mask id = false := by
      cases h : keepFlag OverlapChoice.pRemovePct 1 labels mask id with
      | false => rfl
      | true =>
          obtain ⟨_, hdiv⟩ := (keepFlag_pRemovePct_iff 1 labels mask id).mp h
          rw [one_le_div hcast] at hdiv
          have hle := overlapCount_le_totalCount labels mask id
          have : totalCount labels id ≤ overlapCount labels mask id := by
            exact_mod_cast hdiv
          omega
    rw [h1, h2]

theorem maskLabels_fraction_one_eq_remove (labels : List Nat)
    (mask : List Bool) :
    maskLabels OverlapChoice.pRemovePct 1 labels mask =
      maskLabels OverlapChoice.pRemove 1 labels mask := by
  unfold maskLabels
  by_cases h0 : nobjects labels = 0
  · rw [if_pos h0, if_pos h0]
  · rw [if_neg h0, if_neg h0, if_neg (by decide), if_neg (by decide)]
    apply List.map_congr_left
    intro l hl
    by_cases hl0 : l = 0
    · subst hl0
      rfl
    · have hpos : 0 < totalCount labels l := (totalCount_pos_iff labels l).mpr hl
      rw [keepFlag_fraction_one_eq_remove labels mask hpos]

/-- C4: RemoveByFraction with threshold 1 and RemoveIfAnyOutside agree on
every input: the same objects survive, and the whole kernel (masked grid,
renumbered grid and lineage, under either numbering choice) produces the
same output. -/
theorem claim4_fraction_one_eq_remove (labels : List Nat)
    (mask : List Bool) :
    (∀ id, survives OverlapChoice.pRemovePct 1 labels mask id =
      survives OverlapChoice.pRemove 1 labels mask id) ∧
    (∀ rn, runKernel OverlapChoice.pRemovePct 1 rn labels mask =
      runKernel OverlapChoice.pRemove 1 rn labels mask) := by
  constructor
  · intro id
    unfold survives
    rw [maskLabels_fraction_one_eq_remove labels mask]
  · intro rn
    unfold runKernel
    rw [maskLabels_fraction_one_eq_remove labels mask]

theorem clip_getD_zero :
    ∀ (labels : List Nat) (mask : List Bool) (i : Nat),
      labels.getD i 0 = 0 →
      ((labels.zip mask).map (fun lm => if lm.2 then lm.1 else 0)).getD i 0
        = 0 := by
  intro labels
  induction labels with
  | nil => intro mask i _; simp
  | cons a l ih =>
      intro mask i hz
      cases mask with
      | nil => simp
      | cons m ms =>
          cases i with
          | zero =>
              have ha : a = 0 := hz
              cases m <;> simp [ha]
          | succ j => exact ih ms j hz

theorem maskLabels_getD_zero (c : OverlapChoice) (f : ℚ) (labels : List Nat)
    (mask : List Bool) (i : Nat) (hz : labels.getD i 0 = 0) :
    (maskLabels c f labels mask).getD i 0 = 0 := by
  unfold maskLabels
  by_cases h0 : nobjects labels = 0
  · rw [if_pos h0]; exact hz
  · rw [if_neg h0]
    by_cases hc : c = OverlapChoice.pMask
    · rw [if_pos hc]
      exact clip_getD_zero labels mask i hz
    · rw [if_neg hc]
      have hg0 : (fun l => if l != 0 && keepFlag c f labels mask l then l
          else 0) 0 = 0 := by simp
      rw [@getD_map_zero (fun l => if l != 0 && keepFlag c f labels mask l
        then l else 0) hg0 labels i, hz]
      simp

/-- C6: under `P_MASK` (ClipToOverlap), every output pixel is
`label if mask else 0`, and an object survives exactly when at least one of
its pixels is still nonzero in the clipped grid. -/
theorem claim6_clip_to_overlap (f : ℚ) (labels : List Nat) (mask : List Bool)
    (hlen : mask.length = labels.length) :
    (∀ i, i < labels.length →
      (maskLabels OverlapChoice.pMask f labels mask).getD i 0 =
        (if mask.getD i false = true then labels.getD i 0 else 0)) ∧
    (∀ id, 1 ≤ id →
      (survives OverlapChoice.pMask f labels mask id = true ↔
        ∃ i, i < labels.length ∧ labels.getD i 0 = id ∧
          (maskLabels OverlapChoice.pMask f labels mask).getD i 0 ≠ 0)) := by
  have hpix : ∀ i, i < labels.length →
      (maskLabels OverlapChoice.pMask f labels mask).getD i 0 =
        (if mask.getD i false = true then labels.getD i 0 else 0) := by
    intro i hi
    unfold maskLabels
    by_cases h0 : nobjects labels = 0
    · rw [if_pos h0]
      have hz : labels.getD i 0 = 0 :=
        nobjects_eq_zero h0 _ (getD_mem labels 0 i hi)
      rw [hz]
      by_cases hm : mask.getD i false = true
      · rw [if_pos hm]
      · rw [if_neg hm]
    · rw [if_neg h0, if_pos rfl]
      exact clip_getD labels mask i hi hlen
  refine ⟨hpix, fun id hid1 => ?_⟩
  have hid : id ≠ 0 := by omega
  have hmLen : (maskLabels OverlapChoice.pMask f labels mask).length =
      labels.length := maskLabels_length _ f labels mask hlen
  unfold survives
  rw [Bool.and_eq_true, bne_iff_ne, List.elem_iff]
  constructor
  · rintro ⟨_, hmem⟩
    obtain ⟨⟨i, hilt⟩, hget⟩ := List.mem_iff_get.mp hmem
    have hi : i < labels.length := hmLen ▸ hilt
    have hgd : (maskLabels OverlapChoice.pMask f labels mask).getD i 0 = id := by
      rw [getD_eq_get _ 0 i hilt]
      exact hget
    have hpixi := hpix i hi
    by_cases hm : mask.getD i false = true
    · rw [if_pos hm] at hpixi
      refine ⟨i, hi, ?_, ?_⟩
      · rw [← hpixi]
        exact hgd
      · rw [hgd]
        exact hid
    · rw [if_neg hm] at hpixi
      rw [hpixi] at hgd
      exact absurd hgd.symm hid
  · rintro ⟨i, hi, hlab, hne⟩
    refine ⟨hid, ?_⟩
    have hpixi := hpix i hi
    by_cases hm : mask.getD i false = true
    · rw [if_pos hm, hlab] at hpixi
      have hmem : (maskLabels OverlapChoice.pMask f labels mask).getD i 0 ∈
          maskLabels OverlapChoice.pMask f labels mask :=
        getD_mem _ 0 i (by rw [hmLen]; exact hi)
      rw [hpixi] at hmem
      exact hmem
    · rw [if_neg hm] at hpixi
      exact absurd hpixi hne

/-- C6 witness: grid `[1, 2]` under mask `[T, F]`: pixel 1 is clipped to 0,
and object 1 survives through its surviving pixel 0. -/
theorem claim6_witness :
    ((maskLabels OverlapChoice.pMask 0 [1, 2] [true, false]).getD 1 0 =
      (if ([true, false] : List Bool).getD 1 false = true
       then ([1, 2] : List Nat).getD 1 0 else 0)) ∧
    (survives OverlapChoice.pMask 0 [1, 2] [true, false] 1 = true ↔
      ∃ i, i < ([1, 2] : List Nat).length ∧ ([1, 2] : List Nat).getD i 0 = 1 ∧
        (maskLabels OverlapChoice.pMask 0 [1, 2] [true, false]).getD i 0 ≠ 0) :=
  ⟨(claim6_clip_to_overlap 0 [1, 2] [true, false] rfl).1 1 (by decide),
   (claim6_clip_to_overlap 0 [1, 2] [true, false] rfl).2 1 (by decide)⟩

/-- C8 counterexample: grid `[1, 1]` under mask `[T, F]` with ClipToOverlap
and Retain.  Object 1 survives (pixel 0 stays), yet pixel 1 — which belongs
to the surviving object 1 — is zeroed, so "every pixel equals the input
except pixels of non-surviving objects" fails for the clip retention
policy. -/
theorem claim8_counterexample :
    survives OverlapChoice.pMask 0 [1, 1] [true, false] 1 = true ∧
    ([1, 1] : List Nat).getD 1 0 = 1 ∧
    (runKernel OverlapChoice.pMask 0 RenumberChoice.rRetain [1, 1]
      [true, false]).1.getD 1 0 = 0 := by decide

/-- C8 amended: under Retain with any of the three survival-test retention
policies (all except ClipToOverlap), every output pixel equals the input
pixel when its object survives and is 0 otherwise, and the lineage is the
identity list `[1, ..., nobjects]`. -/
theorem claim8_retain_identity (c : OverlapChoice)
    (hc : c ≠ OverlapChoice.pMask) (f : ℚ) (labels : List Nat)
    (mask : List Bool) :
    ((runKernel c f RenumberChoice.rRetain labels mask).2 =
      (List.range (nobjects labels)).map (fun k => k + 1)) ∧
    (∀ i, i < labels.length →
      (if survives c f labels mask (labels.getD i 0) = true
       then (runKernel c f RenumberChoice.rRetain labels mask).1.getD i 0 =
         labels.getD i 0
       else (runKernel c f RenumberChoice.rRetain labels mask).1.getD i 0 =
         0)) := by
  refine ⟨rfl, fun i hi => ?_⟩
  have hout : (runKernel c f RenumberChoice.rRetain labels mask).1 =
      maskLabels c f labels mask := rfl
  rw [hout]
  by_cases h0 : nobjects labels = 0
  · have hz : labels.getD i 0 = 0 :=
      nobjects_eq_zero h0 _ (getD_mem labels 0 i hi)
    have hsv : survives c f labels mask (labels.getD i 0) = false := by
      rw [hz]
      unfold survives
      simp
    rw [hsv, if_neg (by simp)]
    exact maskLabels_getD_zero c f labels mask i hz
  · have hmask : maskLabels c f labels mask =
        labels.map (fun l => if l != 0 && keepFlag c f labels mask l then l
          else 0) := by
      unfold maskLabels
      rw [if_neg h0, if_neg hc]
    have hg0 : (fun l => if l != 0 && keepFlag c f labels mask l then l
        else 0) 0 = 0 := by simp
    rw [hmask, @getD_map_zero (fun l => if l != 0 && keepFlag c f labels mask l
      then l else 0) hg0 labels i]
    by_cases hl0 : labels.getD i 0 = 0
    · have hsv : survives c f labels mask (labels.getD i 0) = false := by
        rw [hl0]
        unfold survives
        simp
      rw [hsv, if_neg (by simp), hl0]
      simp
    · have hmem : labels.getD i 0 ∈ labels := getD_mem labels 0 i hi
      by_cases hkeep : keepFlag c f labels mask (labels.getD i 0) = true
      · have hsv : survives c f labels mask (labels.getD i 0) = true :=
          (survives_iff hc f labels mask _).mpr ⟨hl0, hmem, hkeep⟩
        rw [hsv, if_pos rfl, if_pos]
        rw [Bool.and_eq_true, bne_iff_ne]
        exact ⟨hl0, hkeep⟩
      · have hsv : survives c f labels mask (labels.getD i 0) = false := by
          cases h : survives c f labels mask (labels.getD i 0) with
          | false => rfl
          | true =>
              obtain ⟨_, _, hflag⟩ := (survives_iff hc f labels mask _).mp h
              exact absurd hflag hkeep
        rw [hsv, if_neg (by simp), if_neg]
        intro hcond
        rw [Bool.and_eq_true] at hcond
        exact hkeep hcond.2

/-- C8 witness: grid `[1, 2]` under mask `[T, F]` with KeepIfAnyOverlap and
Retain: the lineage is `[1, 2]` and pixel 1 (object 2, no overlap) is
zeroed. -/
theorem claim8_witness :
    ((runKernel OverlapChoice.pKeep 0 RenumberChoice.rRetain [1, 2]
        [true, false]).2 =
      (List.range (nobjects [1, 2])).map (fun k => k + 1)) ∧
    (if survives OverlapChoice.pKeep 0 [1, 2] [true, false]
          (([1, 2] : List Nat).getD 1 0) = true
     then (runKernel OverlapChoice.pKeep 0 RenumberChoice.rRetain [1, 2]
        [true, false]).1.getD 1 0 = ([1, 2] : List Nat).getD 1 0
     else (runKernel OverlapChoice.pKeep 0 RenumberChoice.rRetain [1, 2]
        [true, false]).1.getD 1 0 = 0) :=
  ⟨(claim8_retain_identity OverlapChoice.pKeep (by decide) 0 [1, 2]
      [true, false]).1,
   (claim8_retain_identity OverlapChoice.pKeep (by decide) 0 [1, 2]
      [true, false]).2 1 (by decide)⟩

/-- C9: for every input and every retention and renumber policy, a zero
(background) cell of the input grid is still zero in the output grid: the
kernel only ever adds zeros. -/
theorem claim9_zero_cells_preserved (c : OverlapChoice) (f : ℚ)
    (rn : RenumberChoice) (labels : List Nat) (mask : List Bool) (i : Nat)
    (_hi : i < labels.length) (hz : labels.getD i 0 = 0) :
    (runKernel c f rn labels mask).1.getD i 0 = 0 := by
  have hmz := maskLabels_getD_zero c f labels mask i hz
  unfold runKernel renumberStage
  cases rn with
  | rRetain => exact hmz
  | rRenumber =>
      have hidx0 : indexer (npUnique ((maskLabels c f labels mask).filter
          (fun l => l != 0))) 0 = 0 := by
        apply indexer_of_not_mem
        rw [mem_npUnique]
        intro hmem
        have hbad := (List.mem_filter.mp hmem).2
        simp at hbad
      show ((maskLabels c f labels mask).map (indexer (npUnique
        ((maskLabels c f labels mask).filter (fun l => l != 0))))).getD i 0 = 0
      rw [getD_map_zero hidx0 _ i, hmz, hidx0]

/-- C9 witness: grid `[0, 1]` under mask `[F, F]` with RemoveIfAnyOutside
and Renumber: the background pixel 0 stays 0. -/
theorem claim9_witness :
    (runKernel OverlapChoice.pRemove 0 RenumberChoice.rRenumber [0, 1]
      [false, false]).1.getD 0 0 = 0 :=
  claim9_zero_cells_preserved OverlapChoice.pRemove 0 RenumberChoice.rRenumber
    [0, 1] [false, false] 0 (by decide) (by decide)

/-- C7: under Renumber, the lineage list is exactly the ascending survivor
list: it is strictly sorted, its members are the surviving original ids,
`indexer` sends the id at
position `i` (the `(i+1)`-th smallest survivor) to new id `i + 1` and
background 0 to 0, and the output grid is the masked grid passed through
`indexer`.  Concretely, survivors `{2, 5, 7}` out of `nobjects = 7` yield
lineage `[2, 5, 7]` (new id 1 ↦ 2, 2 ↦ 5, 3 ↦ 7) and output grid
`[0, 1, 2, 3]`. -/
theorem claim7_renumber_order (c : OverlapChoice) (f : ℚ)
    (labels : List Nat) (mask : List Bool) :
    (runKernel c f RenumberChoice.rRenumber labels mask).2.Pairwise
      (· < ·) ∧
    (∀ id, id ∈ (runKernel c f RenumberChoice.rRenumber labels mask).2 ↔
      survives c f labels mask id = true) ∧
    (∀ i, i < (runKernel c f RenumberChoice.rRenumber labels mask).2.length →
      indexer (runKernel c f RenumberChoice.rRenumber labels mask).2
        ((runKernel c f RenumberChoice.rRenumber labels mask).2.getD i 0) =
        i + 1) ∧
    indexer (runKernel c f RenumberChoice.rRenumber labels mask).2 0 = 0 ∧
    ((runKernel c f RenumberChoice.rRenumber labels mask).1 =
      (maskLabels c f labels mask).map
        (indexer (runKernel c f RenumberChoice.rRenumber labels mask).2)) ∧
    runKernel OverlapChoice.pKeep 0 RenumberChoice.rRenumber [1, 2, 5, 7]
      [false, true, true, true] = ([0, 1, 2, 3], [2, 5, 7]) := by
  have h2eq : (runKernel c f RenumberChoice.rRenumber labels mask).2 =
      npUnique ((maskLabels c f labels mask).filter (fun l => l != 0)) := rfl
  refine ⟨h2eq ▸ npUnique_pairwise _, ?_, ?_, ?_, rfl, by decide⟩
  · intro id
    rw [h2eq, mem_npUnique, List.mem_filter]
    unfold survives
    rw [Bool.and_eq_true, bne_iff_ne, List.elem_iff]
    constructor
    · rintro ⟨hmem, hbne⟩
      exact ⟨hbne, hmem⟩
    · rintro ⟨hne, hmem⟩
      exact ⟨hmem, hne⟩
  · intro i hi
    rw [h2eq] at hi ⊢
    unfold indexer
    rw [getD_eq_get _ 0 i hi,
      indexOf?_get_nodup _ (npUnique_nodup _) i hi]
  · rw [h2eq]
    apply indexer_of_not_mem
    rw [mem_npUnique]
    intro hmem
    have hbad := (List.mem_filter.mp hmem).2
    simp at hbad

/-- C7 witness: the first survivor (original id 2) of the concrete scenario
is assigned new id 1. -/
theorem claim7_witness :
    indexer (runKernel OverlapChoice.pKeep 0 RenumberChoice.rRenumber
        [1, 2, 5, 7] [false, true, true, true]).2
      ((runKernel OverlapChoice.pKeep 0 RenumberChoice.rRenumber
        [1, 2, 5, 7] [false, true, true, true]).2.getD 0 0) = 0 + 1 :=
  (claim7_renumber_order OverlapChoice.pKeep 0 [1, 2, 5, 7]
    [false, true, true, true]).2.2.1 0 (by decide)

theorem zip_getD_eq :
    ∀ (a b : List Nat) (i : Nat), i < a.length → b.length = a.length →
      (a.zip b).getD i (0, 0) = (a.getD i 0, b.getD i 0) := by
  intro a
  induction a with
  | nil => intro b i hi _; cases hi
  | cons x xs ih =>
      intro b i hi hlen
      cases b with
      | nil => simp at hlen
      | cons y ys =>
          cases i with
          | zero => rfl
          | succ j =>
              exact ih ys j (Nat.lt_of_succ_lt_succ hi) (by simpa using hlen)

theorem nat_sum_pos_iff (l : List Nat) : 0 < l.sum ↔ ∃ x ∈ l, 0 < x := by
  induction l with
  | nil => simp
  | cons a t ih =>
      rw [List.sum_cons]
      constructor
      · intro h
        by_cases ha : 0 < a
        · exact ⟨a, List.mem_cons_self a t, ha⟩
        · have ht : 0 < t.sum := by omega
          obtain ⟨x, hx, hpx⟩ := ih.mp ht
          exact ⟨x, List.mem_cons_of_mem a hx, hpx⟩
      · rintro ⟨x, hx, hpx⟩
        rcases List.mem_cons.mp hx with rfl | hx
        · omega
        · have := ih.mpr ⟨x, hx, hpx⟩
          omega

theorem range_map_getD (n : Nat) (h : Nat → Nat) (k : Nat) (hk : k < n) :
    ((List.range n).map h).getD k 0 = h k := by
  rw [getD_eq_get _ 0 k (by simp [hk])]
  simp

/-- C10: the child-count (survivor-flag) vector computed on the output
grid: when the input grid has no objects it is empty; otherwise it has one
entry per original id `1..nobjects`, and the entry of id `k+1` is 1 when
some pixel of original object `k+1` is nonzero in the output grid and 0
otherwise. -/
theorem claim10_child_count (c : OverlapChoice) (f : ℚ)
    (rn : RenumberChoice) (labels : List Nat) (mask : List Bool)
    (hlen : mask.length = labels.length) :
    (nobjects labels = 0 →
      childCount labels (runKernel c f rn labels mask).1 = []) ∧
    (0 < nobjects labels →
      (childCount labels (runKernel c f rn labels mask).1).length =
        nobjects labels ∧
      ∀ k, k < nobjects labels →
        (((childCount labels (runKernel c f rn labels mask).1).getD k 0 = 1 ↔
          ∃ i, i < labels.length ∧ labels.getD i 0 = k + 1 ∧
            (runKernel c f rn labels mask).1.getD i 0 ≠ 0) ∧
        ((childCount labels (runKernel c f rn labels mask).1).getD k 0 = 1 ∨
          (childCount labels (runKernel c f rn labels mask).1).getD k 0 =
            0))) := by
  have houtlen : (runKernel c f rn labels mask).1.length = labels.length :=
    runKernel_length c f rn labels mask hlen
  have hziplen : (labels.zip (runKernel c f rn labels mask).1).length =
      labels.length := by
    rw [List.length_zip, houtlen, Nat.min_self]
  constructor
  · intro h0
    unfold childCount
    rw [if_pos h0]
  · intro hpos
    have hne : ¬nobjects labels = 0 := by omega
    refine ⟨?_, ?_⟩
    · unfold childCount
      rw [if_neg hne]
      simp
    · intro k hk
      have hentry :
          (childCount labels (runKernel c f rn labels mask).1).getD k 0 =
            (if 0 < (((labels.zip (runKernel c f rn labels mask).1).filter
                (fun pr => pr.1 == k + 1)).map (fun pr => pr.2)).sum
             then 1 else 0) := by
        unfold childCount
        rw [if_neg hne]
        exact range_map_getD (nobjects labels) _ k hk
      have hsum : 0 < (((labels.zip (runKernel c f rn labels mask).1).filter
            (fun pr => pr.1 == k + 1)).map (fun pr => pr.2)).sum ↔
          ∃ i, i < labels.length ∧ labels.getD i 0 = k + 1 ∧
            (runKernel c f rn labels mask).1.getD i 0 ≠ 0 := by
        rw [nat_sum_pos_iff]
        constructor
        · rintro ⟨x, hx, hpx⟩
          obtain ⟨pr, hprmem, hpr⟩ := List.mem_map.mp hx
          obtain ⟨hzip, hfst⟩ := List.mem_filter.mp hprmem
          rw [beq_iff_eq] at hfst
          obtain ⟨⟨i, hilt⟩, hget⟩ := List.mem_iff_get.mp hzip
          have hi : i < labels.length := hziplen ▸ hilt
          have hgd : (labels.zip (runKernel c f rn labels mask).1).getD i
              (0, 0) = pr := by
            rw [getD_eq_get _ (0, 0) i hilt]
            exact hget
          rw [zip_getD_eq labels (runKernel c f rn labels mask).1 i hi
            houtlen] at hgd
          have hfst' : labels.getD i 0 = pr.1 := congrArg Prod.fst hgd
          have hsnd' : (runKernel c f rn labels mask).1.getD i 0 = pr.2 :=
            congrArg Prod.snd hgd
          refine ⟨i, hi, ?_, ?_⟩
          · rw [hfst']
            exact hfst
          · have hx2 : pr.2 = x := hpr
            rw [hsnd', hx2]
            omega
        · rintro ⟨i, hi, hlab, hnz⟩
          refine ⟨(runKernel c f rn labels mask).1.getD i 0, ?_, by omega⟩
          rw [List.mem_map]
          refine ⟨(labels.getD i 0, (runKernel c f rn labels mask).1.getD i 0),
            ?_, rfl⟩
          rw [List.mem_filter]
          constructor
          · have hmem := getD_mem (labels.zip (runKernel c f rn labels mask).1)
              (0, 0) i (by rw [hziplen]; exact hi)
            rw [zip_getD_eq labels (runKernel c f rn labels mask).1 i hi
              houtlen] at hmem
            exact hmem
          · simp only [beq_iff_eq]
            exact hlab
      refine ⟨?_, ?_⟩
      · rw [hentry]
        by_cases hp : 0 < (((labels.zip (runKernel c f rn labels mask).1).filter
            (fun pr => pr.1 == k + 1)).map (fun pr => pr.2)).sum
        · rw [if_pos hp]
          exact iff_of_true rfl (hsum.mp hp)
        · rw [if_neg hp]
          exact iff_of_false (by omega) (fun hex => hp (hsum.mpr hex))
      · rw [hentry]
        by_cases hp : 0 < (((labels.zip (runKernel c f rn labels mask).1).filter
            (fun pr => pr.1 == k + 1)).map (fun pr => pr.2)).sum
        · rw [if_pos hp]
          exact Or.inl rfl
        · rw [if_neg hp]
          exact Or.inr rfl

/-- C10 witness: grid `[1, 2]` under mask `[T, F]` with KeepIfAnyOverlap and
Retain: the flag vector has one entry per original object, and object 1's
entry is 1 because its pixel 0 survives. -/
theorem claim10_witness :
    ((childCount [1, 2] (runKernel OverlapChoice.pKeep 0
        RenumberChoice.rRetain [1, 2] [true, false]).1).length =
      nobjects [1, 2]) ∧
    ((childCount [1, 2] (runKernel OverlapChoice.pKeep 0
        RenumberChoice.rRetain [1, 2] [true, false]).1).getD 0 0 = 1 ↔
      ∃ i, i < ([1, 2] : List Nat).length ∧ ([1, 2] : List Nat).getD i 0 =
        0 + 1 ∧
        (runKernel OverlapChoice.pKeep 0 RenumberChoice.rRetain [1, 2]
          [true, false]).1.getD i 0 ≠ 0) :=
  ⟨((claim10_child_count OverlapChoice.pKeep 0 RenumberChoice.rRetain [1, 2]
      [true, false] rfl).2 (by decide)).1,
   (((claim10_child_count OverlapChoice.pKeep 0 RenumberChoice.rRetain [1, 2]
      [true, false] rfl).2 (by decide)).2 0 (by decide)).1⟩

end MaskObjects
